import Mathlib

/-!
Shallow embedding of corny/tlspolicy-server (Go) for specification checking.

The embedding follows the Go sources:
* `dns_processor` (src/unnamed/part_000, first file): `DnsQuery`, `DnsResult`,
  `DnsJob`, `DnsJobs`, `DnsProcessor.NewJob/NewJobs/Lookup/lookupDns`,
  and the worker completion closure of `NewDnsProcessor`.
* `mx_host_summary` (src/unnamed/part_000, second file): `MxHostGrab`,
  `MxHostSummary`, `NewMxHostSummary`, `MxHostSummary.Append`, `simplifyError`.
* `src/certificate_validity.go`: `CertificateValidity`, `NewCertificateValidity`.

Modelling conventions: Go machine integers that matter here are small
enumerations (DNS rcodes, TLS version codes) and are modelled as `Nat`;
Go `error` values are modelled by their message string; nil-able Go pointers
and slices are modelled as `Option`; external library calls (the DNS exchange,
the zgrab banner grab, the x509 chain builder) are inputs or oracle parameters
of the embedded functions, so each embedded function is a pure function of the
state the Go function reads.  Side-effect order that the claims talk about
(lock/unlock, map updates, enqueueing, completion signals) is made explicit by
having the embedded operations also return a list of events in program order.
-/

namespace TlsPolicy

/-- A Go `error` value, modelled by the string its `Error()` method returns. -/
abbrev GoErr := String

/-! ## DNS data model (dns_processor.go) -/

/-- `dns.Type` is a 16-bit code; the constants used by the repository. -/
def TypeA : Nat := 1
def TypeMX : Nat := 15
def TypeAAAA : Nat := 28
def TypeTLSA : Nat := 52

def RcodeSuccess : Nat := 0
def RcodeNameError : Nat := 3

/-- `dns.RcodeToString` for the rcodes that can reach `lookupDns`; a Go map
miss yields the zero value `""`. -/
def rcodeToString : Nat → String
  | 0 => "NOERROR"
  | 1 => "FORMERR"
  | 2 => "SERVFAIL"
  | 3 => "NXDOMAIN"
  | 4 => "NOTIMP"
  | 5 => "REFUSED"
  | _ => ""

/-- Answer-section resource records, carrying exactly the fields
`DnsResult.appendRR` reads.  Address records carry the text their `String()`
renders to.  `other` stands for any record type the `switch` in `appendRR`
does not match (those append nothing). -/
inductive RR where
  | mx (mxHost : String)
  | a (addr : String)
  | aaaa (addr : String)
  | tlsa (usage : Nat) (selector : Nat) (matchingType : Nat) (certificate : String)
  | other
deriving DecidableEq

/-- `strings.TrimSuffix`. -/
def goTrimSuffix (s suffix : String) : String :=
  if suffix.data.isSuffixOf s.data then s.dropRight suffix.length else s

/-- `strings.ToLower` (per-character, which is all the repository needs). -/
def goToLower (s : String) : String := s.map Char.toLower

/-- `DnsResult.appendRR`: the textual rendering each record contributes, or
`none` for record types the switch skips. -/
def rrText : RR → Option String
  | .mx host => some (goToLower (goTrimSuffix host "."))
  | .a addr => some addr
  | .aaaa addr => some addr
  | .tlsa u s m c =>
      some (toString u ++ " " ++ toString s ++ " " ++ toString m ++ " " ++ c)
  | .other => none

structure DnsResult where
  Results : List String := []
  Secure : Bool := false
  Error : Option GoErr := none
  WhyBogus : Option String := none
deriving DecidableEq

/-- `DnsResult.ErrorMessage`: the error string or nil. -/
def DnsResult.ErrorMessage (result : DnsResult) : Option String :=
  match result.Error with
  | none => none
  | some e => some e

/-- The part of a `*dns.Msg` response that `lookupDns` reads. -/
structure DnsResponse where
  Rcode : Nat := 0
  Answer : List RR := []
deriving DecidableEq

/-- `DnsProcessor.lookupDns`, as a function of the outcome of
`dnsClient.Exchange` (its error and the response it dereferences on the
`err == nil` path; `Exchange` returns a non-nil response whenever it returns
a nil error, and `err != nil` short-circuits the rcode test). -/
def lookupDns (err : Option GoErr) (response : DnsResponse) : DnsResult :=
  if err.isSome || response.Rcode == RcodeNameError then
    { Error := err }
  else if response.Rcode != RcodeSuccess then
    { Error := some (rcodeToString response.Rcode) }
  else
    { Results := response.Answer.filterMap rrText }

/-- The part of the `unbound.Result` that `lookupUnbound` reads; `Data` is the
length of the data slice the loop ranges over. -/
structure UnboundResult where
  Secure : Bool := false
  WhyBogus : String := ""
  NxDomain : Bool := false
  Rcode : Nat := 0
  Rr : List RR := []
  Data : Nat := 0
deriving DecidableEq

/-- `DnsProcessor.lookupUnbound`, as a function of the outcome of
`unboundCtx.Resolve`. -/
def lookupUnbound (err : Option GoErr) (response : UnboundResult) : DnsResult :=
  let base : DnsResult :=
    { Secure := response.Secure,
      WhyBogus := if response.WhyBogus ≠ "" then some response.WhyBogus else none }
  if err.isSome || response.NxDomain then
    { base with Error := err }
  else if response.Rcode != RcodeSuccess then
    { base with Error := some (rcodeToString response.Rcode) }
  else
    { base with Results := (response.Rr.take response.Data).filterMap rrText }

/-! ## Certificate validity (certificate_validity.go) -/

/-- The fields of a parsed `x509.Certificate` that `NewCertificateValidity`
and the modelled chain filter read.  Times are instants on an integer
timeline; `time.Before`/`time.After` are the strict orders on it. -/
structure X509Cert where
  NotBefore : Int := 0
  NotAfter : Int := 0
  UnhandledCriticalExtensions : List Nat := []
  ExtKeyUsage : List Nat := []
deriving DecidableEq

/-- `x509.ExtKeyUsageAny` (iota 0) and `x509.ExtKeyUsageServerAuth` (iota 1). -/
def ExtKeyUsageAny : Nat := 0
def ExtKeyUsageServerAuth : Nat := 1

/-- `x509.IncompatibleUsage` invalid-reason code. -/
def IncompatibleUsage : Nat := 4

/-- Errors produced on the `CertificateValidity.Error` field: `errors.New`
values and `x509.CertificateInvalidError` values. -/
inductive CertError where
  | goError (msg : String)
  | certificateInvalid (cert : X509Cert) (reason : Nat)
deriving DecidableEq

/-- The message of a `CertError` (for `CertificateInvalidError` with reason
`IncompatibleUsage` the x509 library renders the fixed text below). -/
def CertError.message : CertError → String
  | .goError m => m
  | .certificateInvalid _ _ => "x509: certificate specifies an incompatible key usage"

structure CertificateValidity where
  Expired : Bool := false
  Error : Option CertError := none
  Certificates : List X509Cert := []
  TrustedChains : List (String × List X509Cert) := []
deriving DecidableEq

/-- `CertificateValidity.ErrorString`. -/
def CertificateValidity.ErrorString (v : CertificateValidity) : Option String :=
  v.Error.map CertError.message

def certSupportsUsage (c : X509Cert) (u : Nat) : Bool :=
  c.ExtKeyUsage.contains u || c.ExtKeyUsage.contains ExtKeyUsageAny

/-- Modelled from the spec: the external `x509.FilterChainsByKeyUsage` of the
zgrab x509 library is not part of this repository; per the spec it filters
"chains requiring the server-authentication extended-key-usage at the leaf",
so it keeps the chains whose leaf admits every requested usage (a leaf with
`ExtKeyUsageAny` admits everything). -/
def FilterChainsByKeyUsage (chains : List (List X509Cert)) (usages : List Nat) :
    List (List X509Cert) :=
  chains.filter fun chain =>
    match chain.head? with
    | some leaf => usages.all (certSupportsUsage leaf)
    | none => false

/-- The side effects of `NewCertificateValidity` whose order the claims talk
about, in program order. -/
inductive CVEvent where
  | expiryCheck
  | extensionCheck
  | buildChainsCall
  | filterChains
  | storeChain
deriving DecidableEq

/-- A Go runtime fault. -/
inductive GoFault where
  | nilPointerDereference
deriving DecidableEq

/-- `NewCertificateValidity certs now buildChains`: `now` is the
`time.Now()` the function captures in its `VerifyOptions`; `buildChains` is
the external `leaf.BuildChains(&opts)` as a function of the leaf, the
intermediate certificates (`certs[1:]`, collected by the loop) and the
current time.  The Go local `leaf` is nil when `certs` is empty, and the
expiry check dereferences it: that fault is the `.error` case. -/
def NewCertificateValidity (certs : List X509Cert) (now : Int)
    (buildChains : X509Cert → List X509Cert → Int → Except GoErr (List (List X509Cert))) :
    Except GoFault (CertificateValidity × List CVEvent) :=
  let v : CertificateValidity := { Certificates := certs, TrustedChains := [] }
  match certs.head? with
  | none => .error .nilPointerDereference
  | some leaf =>
    let intermediates := certs.drop 1
    let v := { v with Expired := decide (now < leaf.NotBefore) || decide (now > leaf.NotAfter) }
    if leaf.UnhandledCriticalExtensions.length > 0 then
      .ok ({ v with Error := some (.goError "unhandled critical extension") },
        [.expiryCheck, .extensionCheck])
    else
      match buildChains leaf intermediates now with
      | .error e =>
          .ok ({ v with Error := some (.goError e) },
            [.expiryCheck, .extensionCheck, .buildChainsCall])
      | .ok candidateChains =>
        match FilterChainsByKeyUsage candidateChains [ExtKeyUsageServerAuth] with
        | [] =>
            .ok ({ v with Error := some (.certificateInvalid leaf IncompatibleUsage) },
              [.expiryCheck, .extensionCheck, .buildChainsCall, .filterChains])
        | c :: _ =>
            .ok ({ v with TrustedChains := [("system", c)] },
              [.expiryCheck, .extensionCheck, .buildChainsCall, .filterChains, .storeChain])

/-! ## DNS processor state machine (dns_processor.go)

`DnsProcessor` keeps an in-flight map `jobs` from `DnsQuery` to `*DnsJob`,
guarded by `mutex`, plus a worker pool whose intake the state records as
`queue` (the ids handed to `workers.Add`, in order).  A `DnsJob` is
identified by the allocation order of its pointer (`id`); `results` records
the value written to each job's `Result` slot and `doneIds` the jobs whose
`wait.Done` has fired. -/

structure DnsQuery where
  Domain : String
  Typ : Nat
deriving DecidableEq

structure DnsJob where
  id : Nat
  Query : DnsQuery
deriving DecidableEq

structure DnsProcState where
  jobs : List (DnsQuery × DnsJob) := []
  nextId : Nat := 0
  queue : List Nat := []
  results : List (Nat × DnsResult) := []
  doneIds : List Nat := []
deriving DecidableEq

/-- Go map read `proc.jobs[query]`. -/
def mapFind (m : List (DnsQuery × DnsJob)) (q : DnsQuery) : Option DnsJob :=
  (m.find? fun e => e.1 == q).map (·.2)

/-- Go map removal `delete(proc.jobs, q)`. -/
def mapDelete (m : List (DnsQuery × DnsJob)) (q : DnsQuery) :
    List (DnsQuery × DnsJob) :=
  m.filter fun e => !(e.1 == q)

/-- The side effects of the processor's operations, in program order. -/
inductive DnsEvent where
  | lock
  | unlock
  | insertJob (id : Nat)
  | deleteJob (id : Nat)
  | enqueue (id : Nat)
  | writeResult (id : Nat)
  | signalDone (id : Nat)
deriving DecidableEq

/-- `DnsProcessor.NewJob`: under the lock, look the query up and insert a
fresh job on a miss; after releasing the lock, enqueue the fresh job on the
worker pool.  Returns the job handle, the new state and the event trace. -/
def NewJob (s : DnsProcState) (domain : String) (typ : Nat) :
    DnsJob × DnsProcState × List DnsEvent :=
  let query : DnsQuery := ⟨domain, typ⟩
  match mapFind s.jobs query with
  | some job => (job, s, [.lock, .unlock])
  | none =>
    let job : DnsJob := ⟨s.nextId, query⟩
    (job,
     { s with
        jobs := s.jobs ++ [(query, job)],
        nextId := s.nextId + 1,
        queue := s.queue ++ [job.id] },
     [.lock, .insertJob job.id, .unlock, .enqueue job.id])

/-- The worker closure of `NewDnsProcessor` at the point its lookup returned
`res`: write the job's `Result`, remove the job from the in-flight map under
the lock, then fire `wait.Done`. -/
def workComplete (s : DnsProcState) (job : DnsJob) (res : DnsResult) :
    DnsProcState × List DnsEvent :=
  ({ s with
      results := s.results ++ [(job.id, res)],
      jobs := mapDelete s.jobs job.Query,
      doneIds := s.doneIds ++ [job.id] },
   [.writeResult job.id, .lock, .deleteJob job.id, .unlock, .signalDone job.id])

/-- One atomic step of the processor: some goroutine runs `NewJob`, or a
worker completes a job it dequeued (a job still in flight and not yet done). -/
inductive DnsStep : DnsProcState → DnsProcState → Prop where
  | newJob (s : DnsProcState) (domain : String) (typ : Nat) :
      DnsStep s (NewJob s domain typ).2.1
  | complete (s : DnsProcState) (job : DnsJob) (res : DnsResult)
      (hin : mapFind s.jobs job.Query = some job)
      (hnotdone : job.id ∉ s.doneIds) :
      DnsStep s (workComplete s job res).1

/-- States the processor of `NewDnsProcessor` can reach from its initial
state (empty map, no jobs allocated, empty intake). -/
inductive DnsReachable : DnsProcState → Prop where
  | init : DnsReachable {}
  | step {s s' : DnsProcState} : DnsReachable s → DnsStep s s' → DnsReachable s'

/-- `DnsJobs`: a group of jobs. -/
structure DnsJobs where
  jobs : List DnsJob := []
deriving DecidableEq

/-- `DnsJobs.append`. -/
def DnsJobs.appendJob (group : DnsJobs) (job : DnsJob) : DnsJobs :=
  ⟨group.jobs ++ [job]⟩

/-- `DnsProcessor.NewJobs`: one `NewJob` per requested type, in order,
threading the processor state. -/
def NewJobs (s : DnsProcState) (domain : String) :
    List Nat → DnsJobs × DnsProcState
  | [] => (⟨[]⟩, s)
  | typ :: rest =>
    let r := NewJob s domain typ
    let g := NewJobs r.2.1 domain rest
    (⟨r.1 :: g.1.jobs⟩, g.2)

/-- `DnsJob.Results` reads the `Result` slot (after waiting); `r` assigns
each job the `DnsResult` its completion wrote. -/
def DnsJob.ResultsOf (r : DnsJob → DnsResult) (job : DnsJob) : List String :=
  (r job).Results

/-- `DnsJobs.Results`: the nested loop appending every item of every job's
results to one slice, in group order. -/
def DnsJobs.Results (group : DnsJobs) (r : DnsJob → DnsResult) : List String :=
  group.jobs.foldl (fun acc job => acc ++ (r job).Results) []

/-- `DnsJob.Wait` returns exactly when the job's `wait.Done` has fired. -/
def DnsJob.WaitDone (done : Nat → Bool) (job : DnsJob) : Bool :=
  done job.id

/-- `DnsJobs.Wait` loops `job.wait.Wait()` over the group: it has returned
exactly when every constituent's wait has. -/
def DnsJobs.WaitDone (group : DnsJobs) (done : Nat → Bool) : Bool :=
  group.jobs.all fun job => done job.id

/-! ## MX host summary (mx_host_summary.go) -/

/-- `ztls.VersionTLS10` and `ztls.VersionTLS12` wire codes. -/
def VersionTLS10 : Nat := 0x0301
def VersionTLS12 : Nat := 0x0303

/-- The `dhParams interface{}` slot of a grab: nil, `*ztls.ECDHEParams`, or
some other key-exchange parameter type (the type assertion in `Append`
succeeds only on the ECDHE case). -/
inductive DhParams where
  | nilParams
  | ecdheParams (curveType : Nat) (curveId : Nat) (publicKeyLength : Int)
  | otherParams
deriving DecidableEq

/-- `MxHostGrab`: one connection attempt.  `tlsVersion`/`tlsCipherSuite` are
the server hello's codes (0 when no hello was seen); `certificates` is nil
or the parsed chain. -/
structure MxHostGrab where
  starttls : Option Bool := none
  tlsVersion : Nat := 0
  tlsCipherSuite : Nat := 0
  certificates : Option (List X509Cert) := none
  dhParams : DhParams := .nilParams
  Error : Option String := none
deriving DecidableEq

/-- `MxHostGrab.TLSSuccessful`: certificates were received. -/
def MxHostGrab.TLSSuccessful (result : MxHostGrab) : Bool :=
  result.certificates.isSome

/-- `mapset.Set.Add` on a thread-unsafe set, modelled as a duplicate-free
insertion-ordered list. -/
def setAdd (s : List Nat) (x : Nat) : List Nat :=
  if x ∈ s then s else s ++ [x]

/-- The merge-relevant fields of `MxHostSummary` (`address`, `Updated`,
`fingerprints` and `validity` are set outside `Append` and are not part of
the merge).  `tlsVersions`/`tlsCipherSuites` are nil until the first grab
with a TLS hello is appended. -/
structure MxHostSummary where
  Starttls : Option Bool := none
  tlsVersions : Option (List Nat) := none
  tlsCipherSuites : Option (List Nat) := none
  certificates : Option (List X509Cert) := none
  ecdheCurveType : Option Nat := none
  ecdheCurveId : Option Nat := none
  ecdheKeyLength : Option Int := none
  Error : Option String := none
deriving DecidableEq

/-- `MxHostSummary.Append`. -/
def MxHostSummary.Append (summary : MxHostSummary) (grab : MxHostGrab) :
    MxHostSummary :=
  let summary :=
    if summary.certificates.isNone then
      { summary with certificates := grab.certificates }
    else summary
  if grab.tlsVersion ≠ 0 then
    let summary :=
      if summary.tlsVersions.isNone then
        { summary with tlsVersions := some [], tlsCipherSuites := some [] }
      else summary
    let summary :=
      { summary with
          tlsVersions := summary.tlsVersions.map (setAdd · grab.tlsVersion),
          tlsCipherSuites := summary.tlsCipherSuites.map (setAdd · grab.tlsCipherSuite) }
    if summary.ecdheCurveType.isNone then
      match grab.dhParams with
      | .ecdheParams t i l =>
          { summary with
              ecdheCurveType := some t,
              ecdheCurveId := some i,
              ecdheKeyLength := some l }
      | _ => summary
    else summary
  else summary

/-- `NewMxHostSummary`, as a function of the probe outcomes: `probe v` is the
`MxHostGrab` that `NewMxHostGrab(address, v)` produces with the maximum TLS
version capped at `v`.  Also returns the list of caps actually probed, in
order.  (The fingerprint/validity step that follows reads
`result.certificates` but changes none of the merged fields.) -/
def NewMxHostSummaryT (probe : Nat → MxHostGrab) : MxHostSummary × List Nat :=
  let grab := probe VersionTLS12
  let result : MxHostSummary := { Starttls := grab.starttls, Error := grab.Error }
  if result.Starttls = some true then
    let result := result.Append grab
    if grab.tlsVersion > VersionTLS10 then
      let grab2 := probe VersionTLS10
      if grab2.TLSSuccessful then (result.Append grab2, [VersionTLS12, VersionTLS10])
      else (result, [VersionTLS12, VersionTLS10])
    else (result, [VersionTLS12])
  else (result, [VersionTLS12])

/-- The summary `NewMxHostSummary` builds. -/
def NewMxHostSummary (probe : Nat → MxHostGrab) : MxHostSummary :=
  (NewMxHostSummaryT probe).1

/-! ## Error simplification (mx_host_summary.go) -/

/-- The configured prefixes of `stripErrors`. -/
def stripErrors : List String :=
  ["Conversation error", "Could not connect", "dial tcp", "read tcp", "write tcp"]

/-- The separator `": "` that `strings.LastIndex` searches for. -/
def sepSeq : List Char := [':', ' ']

/-- `strings.LastIndex msg ": "`: the index of the last occurrence of the
separator, or none.  (The right spine is searched first, so the returned
index is the largest one at which the separator occurs.) -/
def lastIndexOfSep : List Char → Option Nat
  | [] => none
  | c :: tl =>
    match lastIndexOfSep tl with
    | some i => some (i + 1)
    | none => if sepSeq.isPrefixOf (c :: tl) then some 0 else none

/-- The loop body of `simplifyError` over the configured prefix list. -/
def simplifyLoop : List String → List Char → List Char
  | [], msg => msg
  | p :: ps, msg =>
    if p.data.isPrefixOf msg then
      match lastIndexOfSep msg with
      | some i => msg.drop (i + 2)
      | none => simplifyLoop ps msg
    else simplifyLoop ps msg

/-- `simplifyError`, over the error's message (as a character list). -/
def simplifyError (msg : List Char) : List Char :=
  simplifyLoop stripErrors msg

/-! ## State invariant of the DNS processor -/

/-- Invariant of reachable processor states: the in-flight map has at most one
entry per query and per job; every mapped job carries its key as its `Query`
and was allocated; done jobs were allocated and are not in the map; and the
worker-pool intake holds every allocated job exactly once, in allocation
order. -/
def DnsInv (s : DnsProcState) : Prop :=
  (s.jobs.map Prod.fst).Nodup ∧
  (s.jobs.map fun e => e.2.id).Nodup ∧
  (∀ e ∈ s.jobs, e.2.Query = e.1 ∧ e.2.id < s.nextId) ∧
  (∀ d ∈ s.doneIds, d < s.nextId) ∧
  (∀ e ∈ s.jobs, e.2.id ∉ s.doneIds) ∧
  s.queue = List.range s.nextId

/-! ## Concrete inputs for witnesses and counterexamples -/

/-- A processor state with the MX query for `example.com.` in flight. -/
def dnsStateEx : DnsProcState := (NewJob {} "example.com." TypeMX).2.1

/-- A leaf certificate valid from time 0 to time 10, with a server-auth
extended key usage and no unhandled critical extensions. -/
def leafEx : X509Cert := { NotBefore := 0, NotAfter := 10, ExtKeyUsage := [ExtKeyUsageServerAuth] }

/-- A leaf carrying an unhandled critical extension. -/
def leafCritEx : X509Cert := { NotBefore := 0, NotAfter := 10, UnhandledCriticalExtensions := [99] }

/-- A chain builder that returns the single chain `[leafEx]`. -/
def buildChainsEx (leaf : X509Cert) (_ : List X509Cert) (_ : Int) :
    Except GoErr (List (List X509Cert)) := .ok [[leaf]]

/-- Probe outcomes where the first grab (capped at TLS 1.2) negotiates
TLS 1.2 with a non-ECDHE key exchange and the second grab (capped at
TLS 1.0) negotiates TLS 1.0 with an ECDHE key exchange. -/
def probeEx (v : Nat) : MxHostGrab :=
  if v = VersionTLS12 then
    { starttls := some true, tlsVersion := VersionTLS12, tlsCipherSuite := 10,
      certificates := some [leafEx], dhParams := .otherParams }
  else
    { starttls := some true, tlsVersion := VersionTLS10, tlsCipherSuite := 20,
      certificates := some [{}], dhParams := .ecdheParams 3 23 32 }

/-! ## Theorems -/

/-- C1: the claim says a lookup answered with NXDOMAIN yields empty `Results`
and a non-nil `Error` whose `ErrorMessage()` is non-nil.  The code slips: on
the NXDOMAIN branch it stores the transport error `err`, which is nil when the
exchange itself succeeded, so a pure NXDOMAIN answer comes back with
`Error = nil` (indistinguishable from NODATA), while a transport error is
reported as claimed.  This theorem evaluates `lookupDns` at both inputs. -/
theorem C1_lookupDns_nxdomain_nil_error :
    lookupDns (some "read udp 127.0.0.1:53: i/o timeout") { Rcode := RcodeSuccess }
      = { Results := [], Secure := false,
          Error := some "read udp 127.0.0.1:53: i/o timeout", WhyBogus := none }
    ∧ lookupDns none { Rcode := RcodeNameError, Answer := [] }
      = { Results := [], Secure := false, Error := none, WhyBogus := none }
    ∧ (lookupDns none { Rcode := RcodeNameError, Answer := [] }).ErrorMessage = none := by
  refine ⟨?_, ?_, ?_⟩ <;> decide

/-- C7: for a non-empty certificate sequence, `NewCertificateValidity` sets
`Expired` exactly when the current time is strictly before the leaf's
not-before or strictly after its not-after, and the expiry check (the first
event of the trace) happens before any chain building. -/
theorem C7_expired_iff (certs : List X509Cert) (now : Int)
    (buildChains : X509Cert → List X509Cert → Int → Except GoErr (List (List X509Cert)))
    (leaf : X509Cert) (h : certs.head? = some leaf) :
    ∃ v tr, NewCertificateValidity certs now buildChains = .ok (v, tr)
      ∧ (v.Expired = true ↔ (now < leaf.NotBefore ∨ now > leaf.NotAfter))
      ∧ tr.head? = some CVEvent.expiryCheck
      ∧ (∀ i, tr.get? i = some CVEvent.buildChainsCall → 0 < i) := by
  unfold NewCertificateValidity
  simp only [h]
  split
  · exact ⟨_, _, rfl, by simp, rfl, by rintro (_ | i) hi <;> simp_all⟩
  · split
    · exact ⟨_, _, rfl, by simp, rfl, by rintro (_ | i) hi <;> simp_all⟩
    · split
      · exact ⟨_, _, rfl, by simp, rfl, by rintro (_ | i) hi <;> simp_all⟩
      · exact ⟨_, _, rfl, by simp, rfl, by rintro (_ | i) hi <;> simp_all⟩

/-- C7 witness: a leaf valid on `[0, 10]` checked at time 20 is expired. -/
theorem C7_expired_iff_witness :
    ∃ v tr, NewCertificateValidity [leafEx] 20 buildChainsEx = .ok (v, tr)
      ∧ (v.Expired = true ↔ ((20 : Int) < leafEx.NotBefore ∨ (20 : Int) > leafEx.NotAfter))
      ∧ tr.head? = some CVEvent.expiryCheck
      ∧ (∀ i, tr.get? i = some CVEvent.buildChainsCall → 0 < i) :=
  C7_expired_iff [leafEx] 20 buildChainsEx leafEx rfl

/-- C8: a leaf with an unhandled critical extension makes
`NewCertificateValidity` stop with exactly the error
"unhandled critical extension", with no trusted chain stored and chain
building never attempted. -/
theorem C8_unhandled_critical_extension (certs : List X509Cert) (now : Int)
    (buildChains : X509Cert → List X509Cert → Int → Except GoErr (List (List X509Cert)))
    (leaf : X509Cert) (h : certs.head? = some leaf)
    (hcrit : leaf.UnhandledCriticalExtensions ≠ []) :
    ∃ v tr, NewCertificateValidity certs now buildChains = .ok (v, tr)
      ∧ v.Error = some (CertError.goError "unhandled critical extension")
      ∧ v.ErrorString = some "unhandled critical extension"
      ∧ v.TrustedChains = []
      ∧ CVEvent.buildChainsCall ∉ tr := by
  unfold NewCertificateValidity
  simp only [h]
  rw [if_pos (by simpa [List.length_pos] using hcrit)]
  exact ⟨_, _, rfl, rfl, rfl, rfl, by decide⟩

/-- C8 witness: a concrete leaf carrying critical extension OID 99. -/
theorem C8_unhandled_critical_extension_witness :
    ∃ v tr, NewCertificateValidity [leafCritEx] 0 buildChainsEx = .ok (v, tr)
      ∧ v.Error = some (CertError.goError "unhandled critical extension")
      ∧ v.ErrorString = some "unhandled critical extension"
      ∧ v.TrustedChains = []
      ∧ CVEvent.buildChainsCall ∉ tr :=
  C8_unhandled_critical_extension [leafCritEx] 0 buildChainsEx leafCritEx rfl (by decide)

/-- C9: once candidate chains are built and filtered by the server-auth
extended key usage, a surviving first chain is stored under exactly the key
"system" with no error, and an empty survivor list yields an
incompatible-usage certificate error with no stored chain. -/
theorem C9_chain_selection (certs : List X509Cert) (now : Int)
    (buildChains : X509Cert → List X509Cert → Int → Except GoErr (List (List X509Cert)))
    (leaf : X509Cert) (cand : List (List X509Cert))
    (h : certs.head? = some leaf)
    (hcrit : leaf.UnhandledCriticalExtensions = [])
    (hbc : buildChains leaf (certs.drop 1) now = .ok cand) :
    (∀ c rest, FilterChainsByKeyUsage cand [ExtKeyUsageServerAuth] = c :: rest →
        ∃ v tr, NewCertificateValidity certs now buildChains = .ok (v, tr)
          ∧ v.TrustedChains = [("system", c)] ∧ v.Error = none)
    ∧ (FilterChainsByKeyUsage cand [ExtKeyUsageServerAuth] = [] →
        ∃ v tr, NewCertificateValidity certs now buildChains = .ok (v, tr)
          ∧ v.Error = some (CertError.certificateInvalid leaf IncompatibleUsage)
          ∧ v.TrustedChains = []) := by
  unfold NewCertificateValidity
  simp only [h, hcrit, List.length_nil, gt_iff_lt, lt_self_iff_false, if_false, hbc]
  constructor
  · intro c rest hf
    rw [hf]
    exact ⟨_, _, rfl, rfl, rfl⟩
  · intro hf
    rw [hf]
    exact ⟨_, _, rfl, rfl, rfl⟩

/-- C9 witness: the single candidate chain `[leafEx]` has the server-auth
usage at its leaf, survives the filter and lands under "system". -/
theorem C9_chain_selection_witness :
    (∀ c rest, FilterChainsByKeyUsage [[leafEx]] [ExtKeyUsageServerAuth] = c :: rest →
        ∃ v tr, NewCertificateValidity [leafEx] 5 buildChainsEx = .ok (v, tr)
          ∧ v.TrustedChains = [("system", c)] ∧ v.Error = none)
    ∧ (FilterChainsByKeyUsage [[leafEx]] [ExtKeyUsageServerAuth] = [] →
        ∃ v tr, NewCertificateValidity [leafEx] 5 buildChainsEx = .ok (v, tr)
          ∧ v.Error = some (CertError.certificateInvalid leafEx IncompatibleUsage)
          ∧ v.TrustedChains = []) :=
  C9_chain_selection [leafEx] 5 buildChainsEx leafEx [[leafEx]] rfl rfl rfl

/-- C10: `NewCertificateValidity` faults (nil-pointer dereference of the
local `leaf` at the expiry check) exactly on the empty certificate sequence;
on any non-empty sequence it returns normally. -/
theorem C10_requires_nonempty_certs (certs : List X509Cert) (now : Int)
    (buildChains : X509Cert → List X509Cert → Int → Except GoErr (List (List X509Cert))) :
    (certs = [] →
       NewCertificateValidity certs now buildChains = .error GoFault.nilPointerDereference)
    ∧ (certs ≠ [] → ∃ out, NewCertificateValidity certs now buildChains = .ok out) := by
  constructor
  · rintro rfl; rfl
  · intro hne
    obtain ⟨c, cs, rfl⟩ := List.exists_cons_of_ne_nil hne
    unfold NewCertificateValidity
    simp only [List.head?_cons]
    split
    · exact ⟨_, rfl⟩
    · split
      · exact ⟨_, rfl⟩
      · split
        · exact ⟨_, rfl⟩
        · exact ⟨_, rfl⟩

/-- When `lastIndexOfSep` finds nothing, the separator occurs nowhere. -/
theorem lastIndexOfSep_none {msg : List Char} (h : lastIndexOfSep msg = none) :
    ∀ k, sepSeq.isPrefixOf (msg.drop k) = false := by
  induction msg with
  | nil => intro k; rw [List.drop_nil]; decide
  | cons c tl ih =>
    rw [lastIndexOfSep] at h
    cases htl : lastIndexOfSep tl with
    | some j => rw [htl] at h; cases h
    | none =>
      rw [htl] at h
      intro k
      cases k with
      | zero =>
        simp only [List.drop_zero]
        by_contra hp
        simp only [Bool.not_eq_false] at hp
        rw [if_pos hp] at h
        cases h
      | succ k => simpa using ih htl k

/-- When `lastIndexOfSep` returns `i`, the separator occurs at `i` and at no
larger index. -/
theorem lastIndexOfSep_some {msg : List Char} {i : Nat}
    (h : lastIndexOfSep msg = some i) :
    sepSeq.isPrefixOf (msg.drop i) = true ∧
      ∀ k, sepSeq.isPrefixOf (msg.drop k) = true → k ≤ i := by
  induction msg generalizing i with
  | nil => cases h
  | cons c tl ih =>
    rw [lastIndexOfSep] at h
    cases htl : lastIndexOfSep tl with
    | some j =>
      rw [htl] at h
      injection h with h
      subst h
      obtain ⟨h1, h2⟩ := ih htl
      refine ⟨by simpa using h1, ?_⟩
      intro k hk
      cases k with
      | zero => exact Nat.zero_le _
      | succ k =>
        have := h2 k (by simpa using hk)
        omega
    | none =>
      rw [htl] at h
      by_cases hp : sepSeq.isPrefixOf (c :: tl) = true
      · rw [if_pos hp] at h
        injection h with h
        subst h
        refine ⟨by simpa using hp, ?_⟩
        intro k hk
        cases k with
        | zero => exact Nat.le_refl 0
        | succ k =>
          have := lastIndexOfSep_none htl k
          rw [List.drop_succ_cons] at hk
          rw [this] at hk
          cases hk
      · rw [if_neg hp] at h
        cases h

/-- A list is an infix exactly when it is a prefix of some suffix. -/
theorem infix_iff_isPrefixOf_drop {l msg : List Char} :
    l <:+: msg ↔ ∃ k, l.isPrefixOf (msg.drop k) = true := by
  constructor
  · rintro ⟨s, t, rfl⟩
    refine ⟨s.length, ?_⟩
    rw [List.isPrefixOf_iff_prefix, List.append_assoc, List.drop_left]
    exact ⟨t, rfl⟩
  · rintro ⟨k, hk⟩
    rw [List.isPrefixOf_iff_prefix] at hk
    obtain ⟨t, ht⟩ := hk
    exact ⟨msg.take k, t, by rw [List.append_assoc, ht, List.take_append_drop]⟩

/-- `simplifyLoop` leaves a message with no separator unchanged. -/
theorem simplifyLoop_of_no_sep (ps : List String) {msg : List Char}
    (h : lastIndexOfSep msg = none) : simplifyLoop ps msg = msg := by
  induction ps with
  | nil => rfl
  | cons p ps ih =>
    rw [simplifyLoop]
    split
    · rw [h]
      exact ih
    · exact ih

/-- `simplifyLoop` leaves a message matching no configured prefix unchanged. -/
theorem simplifyLoop_of_no_match {ps : List String} {msg : List Char}
    (h : ∀ p ∈ ps, p.data.isPrefixOf msg = false) : simplifyLoop ps msg = msg := by
  induction ps with
  | nil => rfl
  | cons p ps ih =>
    rw [simplifyLoop]
    rw [if_neg (by simp [h p (List.mem_cons_self p ps)])]
    exact ih fun q hq => h q (List.mem_cons_of_mem p hq)

/-- When some configured prefix matches and the separator occurs last at `i`,
`simplifyLoop` drops everything through index `i + 1`. -/
theorem simplifyLoop_of_match {ps : List String} {msg : List Char} {p : String}
    {i : Nat} (hp : p ∈ ps) (hpre : p.data.isPrefixOf msg = true)
    (hlast : lastIndexOfSep msg = some i) :
    simplifyLoop ps msg = msg.drop (i + 2) := by
  induction ps with
  | nil => cases hp
  | cons q ps ih =>
    rw [simplifyLoop]
    by_cases hq : q.data.isPrefixOf msg = true
    · rw [if_pos hq, hlast]
    · rcases List.mem_cons.mp hp with h | h
      · subst h
        exact absurd hpre (by simpa using hq)
      · rw [if_neg (by simpa using hq)]
        exact ih h

/-- C6: for every error message that starts with one of the configured
prefixes and contains the separator ": ", `simplifyError` returns exactly the
substring strictly after the last ": " (the returned text is a separator-free
tail that together with some head and one ": " reassembles the message);
messages matching no prefix, or containing no ": ", are returned unchanged;
and the literal "dial tcp 203.0.113.5:25: connection refused" simplifies to
exactly "connection refused". -/
theorem C6_simplifyError (msg : List Char) :
    ((∃ p ∈ stripErrors, p.data <+: msg) → sepSeq <:+: msg →
        (∃ s, msg = s ++ sepSeq ++ simplifyError msg) ∧ ¬ sepSeq <:+: simplifyError msg)
    ∧ ((∀ p ∈ stripErrors, ¬ p.data <+: msg) → simplifyError msg = msg)
    ∧ (¬ sepSeq <:+: msg → simplifyError msg = msg)
    ∧ simplifyError ("dial tcp 203.0.113.5:25: connection refused".data)
        = ("connection refused".data) := by
  refine ⟨?_, ?_, ?_, by decide⟩
  · rintro ⟨p, hp, hpre⟩ hinf
    obtain ⟨k, hk⟩ := infix_iff_isPrefixOf_drop.mp hinf
    cases hlast : lastIndexOfSep msg with
    | none => exact absurd hk (by simp [lastIndexOfSep_none hlast k])
    | some i =>
      obtain ⟨h1, _⟩ := lastIndexOfSep_some hlast
      have hdrop : simplifyError msg = msg.drop (i + 2) :=
        simplifyLoop_of_match hp (by simpa using hpre) hlast
      obtain ⟨t, ht⟩ := List.isPrefixOf_iff_prefix.mp h1
      have htail : msg.drop (i + 2) = t := by
        have hstep : (sepSeq ++ t).drop sepSeq.length = t := List.drop_left sepSeq t
        rw [ht] at hstep
        rw [← hstep, List.drop_drop]
        rfl
      refine ⟨⟨msg.take i, ?_⟩, ?_⟩
      · rw [hdrop, htail, List.append_assoc, ht, List.take_append_drop]
      · rw [hdrop]
        intro hinf2
        obtain ⟨k2, hk2⟩ := infix_iff_isPrefixOf_drop.mp hinf2
        rw [List.drop_drop] at hk2
        have := (lastIndexOfSep_some hlast).2 _ hk2
        omega
  · intro h
    exact simplifyLoop_of_no_match fun p hp => by
      have hpm := h p hp
      rw [← List.isPrefixOf_iff_prefix] at hpm
      exact Bool.eq_false_iff.mpr fun hne => hpm (hne ▸ rfl)
  · intro h
    cases hlast : lastIndexOfSep msg with
    | none => exact simplifyLoop_of_no_sep _ hlast
    | some i =>
      obtain ⟨h1, _⟩ := lastIndexOfSep_some hlast
      exact absurd (infix_iff_isPrefixOf_drop.mpr ⟨i, h1⟩) h

/-- A map miss means no entry carries the key. -/
theorem mapFind_eq_none {m : List (DnsQuery × DnsJob)} {q : DnsQuery}
    (h : mapFind m q = none) : ∀ e ∈ m, e.1 ≠ q := by
  intro e he
  unfold mapFind at h
  rw [Option.map_eq_none'] at h
  have := List.find?_eq_none.mp h e he
  simpa using this

/-- A map hit returns the job of an entry carrying the key. -/
theorem mapFind_eq_some {m : List (DnsQuery × DnsJob)} {q : DnsQuery} {job : DnsJob}
    (h : mapFind m q = some job) : ∃ e ∈ m, e.1 = q ∧ e.2 = job := by
  unfold mapFind at h
  cases hf : m.find? (fun e => e.1 == q) with
  | none => rw [hf] at h; cases h
  | some e =>
    rw [hf] at h
    injection h with h
    exact ⟨e, List.mem_of_find?_eq_some hf, by simpa using List.find?_some hf, h⟩

theorem dnsInv_init : DnsInv {} := by
  refine ⟨?_, ?_, ?_, ?_, ?_, ?_⟩ <;> simp [DnsInv]

/-- `NewJob` preserves the processor invariant. -/
theorem dnsInv_newJob (s : DnsProcState) (domain : String) (typ : Nat)
    (h : DnsInv s) : DnsInv (NewJob s domain typ).2.1 := by
  obtain ⟨h1, h2, h3, h4, h5, h6⟩ := h
  simp only [NewJob]
  cases hfind : mapFind s.jobs ⟨domain, typ⟩ with
  | some job => exact ⟨h1, h2, h3, h4, h5, h6⟩
  | none =>
    have hkeys := mapFind_eq_none hfind
    refine ⟨?_, ?_, ?_, ?_, ?_, ?_⟩
    · simp only [List.map_append, List.map_cons, List.map_nil]
      rw [List.nodup_append]
      refine ⟨h1, List.nodup_singleton _, ?_⟩
      intro x hx hx'
      obtain ⟨e, he, rfl⟩ := List.mem_map.mp hx
      simp only [List.mem_singleton] at hx'
      exact hkeys e he hx'
    · simp only [List.map_append, List.map_cons, List.map_nil]
      rw [List.nodup_append]
      refine ⟨h2, List.nodup_singleton _, ?_⟩
      intro x hx hx'
      obtain ⟨e, he, rfl⟩ := List.mem_map.mp hx
      have hlt := (h3 e he).2
      simp at hx'
      omega
    · intro e he
      rcases List.mem_append.mp he with he | he
      · exact ⟨(h3 e he).1, Nat.lt_succ_of_lt (h3 e he).2⟩
      · simp only [List.mem_singleton] at he
        subst he
        exact ⟨rfl, Nat.lt_succ_self _⟩
    · intro d hd
      exact Nat.lt_succ_of_lt (h4 d hd)
    · intro e he
      rcases List.mem_append.mp he with he | he
      · exact h5 e he
      · simp only [List.mem_singleton] at he
        subst he
        intro hmem
        have hcontra := h4 _ hmem
        simp at hcontra
    · simp only []
      rw [h6, List.range_succ]

/-- The worker's completion path preserves the processor invariant. -/
theorem dnsInv_complete (s : DnsProcState) (job : DnsJob) (res : DnsResult)
    (hin : mapFind s.jobs job.Query = some job)
    (h : DnsInv s) : DnsInv (workComplete s job res).1 := by
  obtain ⟨h1, h2, h3, h4, h5, h6⟩ := h
  obtain ⟨e, he, hek, hej⟩ := mapFind_eq_some hin
  have hjoblt : job.id < s.nextId := by
    have := (h3 e he).2
    rw [hej] at this
    exact this
  simp only [workComplete, mapDelete]
  refine ⟨?_, ?_, ?_, ?_, ?_, h6⟩
  · exact h1.sublist ((List.filter_sublist _).map Prod.fst)
  · exact h2.sublist ((List.filter_sublist _).map _)
  · intro e' he'
    exact h3 e' (List.mem_of_mem_filter he')
  · intro d hd
    rcases List.mem_append.mp hd with hd | hd
    · exact h4 d hd
    · simp only [List.mem_singleton] at hd
      subst hd
      exact hjoblt
  · intro e' he'
    have hmem := List.mem_of_mem_filter he'
    have hpred := List.of_mem_filter he'
    simp only [Bool.not_eq_true', beq_eq_false_iff_ne, ne_eq] at hpred
    intro hd
    rcases List.mem_append.mp hd with hd | hd
    · exact h5 e' hmem hd
    · simp only [List.mem_singleton] at hd
      have : e' = e := List.inj_on_of_nodup_map h2 hmem he (by rw [hd, hej])
      exact hpred (by rw [this, hek])

/-- Every reachable processor state satisfies the invariant. -/
theorem dnsReachable_inv {s : DnsProcState} (h : DnsReachable s) : DnsInv s := by
  induction h with
  | init => exact dnsInv_init
  | step _ hstep ih =>
    cases hstep with
    | newJob domain typ => exact dnsInv_newJob _ domain typ ih
    | complete job res hin hnd => exact dnsInv_complete _ job res hin ih

/-- The handle `NewJob` returns always carries the requested query. -/
theorem newJob_Query (s : DnsProcState) (domain : String) (typ : Nat)
    (h : DnsInv s) : (NewJob s domain typ).1.Query = ⟨domain, typ⟩ := by
  simp only [NewJob]
  cases hfind : mapFind s.jobs ⟨domain, typ⟩ with
  | some job =>
    obtain ⟨e, he, hek, hej⟩ := mapFind_eq_some hfind
    simp only []
    rw [← hej, (h.2.2.1 e he).1, hek]
  | none => rfl

/-- C2: `NewJob` deduplicates by query: while a query is in flight, every call
with an equal query returns the very same job handle without changing the
state or enqueueing anything; reachable states keep at most one in-flight map
entry per query; the worker-pool intake holds each created job exactly once
(it equals the allocation order `range nextId`); and in the traced call any
enqueue event happens only after the unlock event. -/
theorem C2_NewJob_dedup (s : DnsProcState) (domain : String) (typ : Nat)
    (hreach : DnsReachable s) :
    (∀ job, mapFind s.jobs ⟨domain, typ⟩ = some job →
        NewJob s domain typ = (job, s, [DnsEvent.lock, DnsEvent.unlock]))
    ∧ (s.jobs.map Prod.fst).Nodup
    ∧ ((NewJob s domain typ).2.1.jobs.map Prod.fst).Nodup
    ∧ (NewJob s domain typ).2.1.queue = List.range (NewJob s domain typ).2.1.nextId
    ∧ (∀ i idn, (NewJob s domain typ).2.2.get? i = some (DnsEvent.enqueue idn) →
        ∃ k, k < i ∧ (NewJob s domain typ).2.2.get? k = some DnsEvent.unlock) := by
  have hinv := dnsReachable_inv hreach
  have hinv' := dnsInv_newJob s domain typ hinv
  refine ⟨?_, hinv.1, hinv'.1, hinv'.2.2.2.2.2, ?_⟩
  · intro job hfind
    simp only [NewJob]
    rw [hfind]
  · simp only [NewJob]
    cases hfind : mapFind s.jobs ⟨domain, typ⟩ with
    | some job =>
      rintro (_ | _ | i) idn hi <;> simp_all
    | none =>
      rintro (_ | _ | _ | _ | i) idn hi <;> simp_all
      exact ⟨2, by omega, rfl⟩

/-- C2 witness: with the MX query for `example.com.` in flight, a second
`NewJob` returns the original handle (id 0), leaves the state unchanged and
enqueues nothing. -/
theorem C2_NewJob_dedup_witness :
    NewJob dnsStateEx "example.com." TypeMX
      = (⟨0, ⟨"example.com.", TypeMX⟩⟩, dnsStateEx, [DnsEvent.lock, DnsEvent.unlock]) :=
  (C2_NewJob_dedup dnsStateEx "example.com." TypeMX
      (DnsReachable.step DnsReachable.init (DnsStep.newJob {} "example.com." TypeMX))).1
    ⟨0, ⟨"example.com.", TypeMX⟩⟩ (by decide)

/-- C3: in the worker's completion path the result write comes first, then the
removal from the in-flight map under the lock, and the completion signal fires
last; immediately after the step the completed query is gone from the map, the
job is done and its result recorded; and in every reachable state no job that
has signalled completion is still in the in-flight map. -/
theorem C3_completion_order (s : DnsProcState) (job : DnsJob) (res : DnsResult) :
    (workComplete s job res).2
      = [DnsEvent.writeResult job.id, DnsEvent.lock, DnsEvent.deleteJob job.id,
         DnsEvent.unlock, DnsEvent.signalDone job.id]
    ∧ (∀ i k, (workComplete s job res).2.get? i = some (DnsEvent.signalDone job.id) →
        (workComplete s job res).2.get? k = some (DnsEvent.deleteJob job.id) → k < i)
    ∧ (∀ i k, (workComplete s job res).2.get? i = some (DnsEvent.deleteJob job.id) →
        (workComplete s job res).2.get? k = some (DnsEvent.writeResult job.id) → k < i)
    ∧ mapFind (workComplete s job res).1.jobs job.Query = none
    ∧ job.id ∈ (workComplete s job res).1.doneIds
    ∧ (job.id, res) ∈ (workComplete s job res).1.results
    ∧ (∀ s', DnsReachable s' → ∀ e ∈ s'.jobs, e.2.id ∉ s'.doneIds) := by
  refine ⟨rfl, ?_, ?_, ?_, ?_, ?_, ?_⟩
  · rintro (_ | _ | _ | _ | _ | i) (_ | _ | _ | _ | _ | k) hi hk <;>
      simp_all [workComplete]
  · rintro (_ | _ | _ | _ | _ | i) (_ | _ | _ | _ | _ | k) hi hk <;>
      simp_all [workComplete]
  · simp only [workComplete, mapDelete, mapFind]
    rw [Option.map_eq_none']
    refine List.find?_eq_none.mpr ?_
    intro e he
    have := List.of_mem_filter he
    simpa using this
  · simp [workComplete]
  · simp [workComplete]
  · intro s' hs' e he
    exact (dnsReachable_inv hs').2.2.2.2.1 e he

/-- `foldl` over append starting from `acc` is `acc` followed by the joined
per-element lists. -/
theorem foldl_append_eq_flatten {α β : Type} (f : α → List β) (l : List α)
    (acc : List β) :
    l.foldl (fun a x => a ++ f x) acc = acc ++ (l.map f).flatten := by
  induction l generalizing acc with
  | nil => simp
  | cons x xs ih => simp [ih, List.append_assoc]

/-- The jobs of a `NewJobs` group carry the requested queries, one per type,
in the order the types were given. -/
theorem NewJobs_queries (domain : String) :
    ∀ (types : List Nat) (s : DnsProcState), DnsReachable s →
      (NewJobs s domain types).1.jobs.map DnsJob.Query
        = types.map fun t => ⟨domain, t⟩ := by
  intro types
  induction types with
  | nil => intro s _; rfl
  | cons t ts ih =>
    intro s hs
    have hq := newJob_Query s domain t (dnsReachable_inv hs)
    have hs' : DnsReachable (NewJob s domain t).2.1 :=
      DnsReachable.step hs (DnsStep.newJob s domain t)
    simp only [NewJobs, List.map_cons]
    rw [hq, ih _ hs']

/-- C4: a `NewJobs` group has one job per requested type in the given order;
its `Results` is the concatenation of the constituent jobs' results in that
order, so its length is the sum of the per-job result lengths; and the group's
`Wait` has returned exactly when every constituent job's completion has
fired. -/
theorem C4_group_results (s : DnsProcState) (domain : String) (types : List Nat)
    (r : DnsJob → DnsResult) (done : Nat → Bool) (hreach : DnsReachable s) :
    ((NewJobs s domain types).1.jobs.map DnsJob.Query = types.map fun t => ⟨domain, t⟩)
    ∧ (NewJobs s domain types).1.Results r
        = ((NewJobs s domain types).1.jobs.map fun j => (r j).Results).flatten
    ∧ ((NewJobs s domain types).1.Results r).length
        = ((NewJobs s domain types).1.jobs.map fun j => ((r j).Results).length).sum
    ∧ ((NewJobs s domain types).1.WaitDone done = true ↔
        ∀ j ∈ (NewJobs s domain types).1.jobs, done j.id = true) := by
  have hjoin : (NewJobs s domain types).1.Results r
      = ((NewJobs s domain types).1.jobs.map fun j => (r j).Results).flatten := by
    simpa using foldl_append_eq_flatten (fun j => (r j).Results)
      (NewJobs s domain types).1.jobs []
  refine ⟨NewJobs_queries domain types s hreach, hjoin, ?_, ?_⟩
  · rw [hjoin, List.length_flatten, List.map_map]
    rfl
  · simp [DnsJobs.WaitDone, List.all_eq_true]

/-- C4 witness: A and AAAA jobs for `mx.example.com.` from the initial state,
with each job completed with one address. -/
theorem C4_group_results_witness :
    ((NewJobs {} "mx.example.com." [TypeA, TypeAAAA]).1.jobs.map DnsJob.Query
        = [TypeA, TypeAAAA].map fun t => ⟨"mx.example.com.", t⟩)
    ∧ (NewJobs {} "mx.example.com." [TypeA, TypeAAAA]).1.Results
          (fun _ => { Results := ["192.0.2.1"] })
        = (((NewJobs {} "mx.example.com." [TypeA, TypeAAAA]).1.jobs.map
            fun _ => (({ Results := ["192.0.2.1"] } : DnsResult)).Results).flatten)
    ∧ ((NewJobs {} "mx.example.com." [TypeA, TypeAAAA]).1.Results
          (fun _ => { Results := ["192.0.2.1"] })).length
        = (((NewJobs {} "mx.example.com." [TypeA, TypeAAAA]).1.jobs.map
            fun _ => (["192.0.2.1"] : List String).length).sum)
    ∧ (((NewJobs {} "mx.example.com." [TypeA, TypeAAAA]).1.WaitDone (fun _ => true) = true)
        ↔ ∀ j ∈ (NewJobs {} "mx.example.com." [TypeA, TypeAAAA]).1.jobs,
            (fun _ : Nat => true) j.id = true) :=
  C4_group_results {} "mx.example.com." [TypeA, TypeAAAA]
    (fun _ => { Results := ["192.0.2.1"] }) (fun _ => true) DnsReachable.init

/-- The element just added is in the set. -/
theorem setAdd_self (s : List Nat) (x : Nat) : x ∈ setAdd s x := by
  unfold setAdd
  split
  · assumption
  · simp

/-- Adding keeps the previous members. -/
theorem setAdd_mono {s : List Nat} {y : Nat} (x : Nat) (h : y ∈ s) :
    y ∈ setAdd s x := by
  unfold setAdd
  split
  · exact h
  · simp [h]

/-- `Append` never touches the `Starttls` field. -/
theorem Append_Starttls (s : MxHostSummary) (g : MxHostGrab) :
    (s.Append g).Starttls = s.Starttls := by
  by_cases h1 : s.certificates = none <;>
    by_cases h2 : g.tlsVersion = 0 <;>
      by_cases h3 : s.tlsVersions = none <;>
        by_cases h4 : s.ecdheCurveType = none <;>
          cases hd : g.dhParams <;>
            simp [MxHostSummary.Append, Option.isNone_iff_eq_none, h1, h2, h3, h4, hd]

/-- `Append` never touches the `Error` field. -/
theorem Append_Error (s : MxHostSummary) (g : MxHostGrab) :
    (s.Append g).Error = s.Error := by
  by_cases h1 : s.certificates = none <;>
    by_cases h2 : g.tlsVersion = 0 <;>
      by_cases h3 : s.tlsVersions = none <;>
        by_cases h4 : s.ecdheCurveType = none <;>
          cases hd : g.dhParams <;>
            simp [MxHostSummary.Append, Option.isNone_iff_eq_none, h1, h2, h3, h4, hd]

/-- `Append` sets `certificates` only when it was nil. -/
theorem Append_certificates (s : MxHostSummary) (g : MxHostGrab) :
    (s.Append g).certificates
      = if s.certificates.isNone then g.certificates else s.certificates := by
  by_cases h1 : s.certificates = none <;>
    by_cases h2 : g.tlsVersion = 0 <;>
      by_cases h3 : s.tlsVersions = none <;>
        by_cases h4 : s.ecdheCurveType = none <;>
          cases hd : g.dhParams <;>
            simp [MxHostSummary.Append, Option.isNone_iff_eq_none, h1, h2, h3, h4, hd]

/-- The `tlsVersions` field after `Append`. -/
theorem Append_tlsVersions (s : MxHostSummary) (g : MxHostGrab) :
    (s.Append g).tlsVersions
      = if g.tlsVersion ≠ 0 then
          (if s.tlsVersions.isNone then some [] else s.tlsVersions).map
            (setAdd · g.tlsVersion)
        else s.tlsVersions := by
  by_cases h1 : s.certificates = none <;>
    by_cases h2 : g.tlsVersion = 0 <;>
      by_cases h3 : s.tlsVersions = none <;>
        by_cases h4 : s.ecdheCurveType = none <;>
          cases hd : g.dhParams <;>
            simp [MxHostSummary.Append, Option.isNone_iff_eq_none, h1, h2, h3, h4, hd]

/-- The `tlsCipherSuites` field after `Append` (the fresh-set branch is keyed
on `tlsVersions` being nil, as in the source). -/
theorem Append_tlsCipherSuites (s : MxHostSummary) (g : MxHostGrab) :
    (s.Append g).tlsCipherSuites
      = if g.tlsVersion ≠ 0 then
          (if s.tlsVersions.isNone then some [] else s.tlsCipherSuites).map
            (setAdd · g.tlsCipherSuite)
        else s.tlsCipherSuites := by
  by_cases h1 : s.certificates = none <;>
    by_cases h2 : g.tlsVersion = 0 <;>
      by_cases h3 : s.tlsVersions = none <;>
        by_cases h4 : s.ecdheCurveType = none <;>
          cases hd : g.dhParams <;>
            simp [MxHostSummary.Append, Option.isNone_iff_eq_none, h1, h2, h3, h4, hd]

/-- The `ecdheCurveType` field after `Append`. -/
theorem Append_ecdheCurveType (s : MxHostSummary) (g : MxHostGrab) :
    (s.Append g).ecdheCurveType
      = if g.tlsVersion ≠ 0 ∧ s.ecdheCurveType = none then
          (match g.dhParams with
           | .ecdheParams t _ _ => some t
           | _ => s.ecdheCurveType)
        else s.ecdheCurveType := by
  by_cases h1 : s.certificates = none <;>
    by_cases h2 : g.tlsVersion = 0 <;>
      by_cases h3 : s.tlsVersions = none <;>
        by_cases h4 : s.ecdheCurveType = none <;>
          cases hd : g.dhParams <;>
            simp [MxHostSummary.Append, Option.isNone_iff_eq_none, h1, h2, h3, h4, hd]

/-- The `ecdheCurveId` field after `Append`. -/
theorem Append_ecdheCurveId (s : MxHostSummary) (g : MxHostGrab) :
    (s.Append g).ecdheCurveId
      = if g.tlsVersion ≠ 0 ∧ s.ecdheCurveType = none then
          (match g.dhParams with
           | .ecdheParams _ i _ => some i
           | _ => s.ecdheCurveId)
        else s.ecdheCurveId := by
  by_cases h1 : s.certificates = none <;>
    by_cases h2 : g.tlsVersion = 0 <;>
      by_cases h3 : s.tlsVersions = none <;>
        by_cases h4 : s.ecdheCurveType = none <;>
          cases hd : g.dhParams <;>
            simp [MxHostSummary.Append, Option.isNone_iff_eq_none, h1, h2, h3, h4, hd]

/-- The `ecdheKeyLength` field after `Append`. -/
theorem Append_ecdheKeyLength (s : MxHostSummary) (g : MxHostGrab) :
    (s.Append g).ecdheKeyLength
      = if g.tlsVersion ≠ 0 ∧ s.ecdheCurveType = none then
          (match g.dhParams with
           | .ecdheParams _ _ l => some l
           | _ => s.ecdheKeyLength)
        else s.ecdheKeyLength := by
  by_cases h1 : s.certificates = none <;>
    by_cases h2 : g.tlsVersion = 0 <;>
      by_cases h3 : s.tlsVersions = none <;>
        by_cases h4 : s.ecdheCurveType = none <;>
          cases hd : g.dhParams <;>
            simp [MxHostSummary.Append, Option.isNone_iff_eq_none, h1, h2, h3, h4, hd]

/-- C5 counterexample: the claim says later grabs contribute only to the
tls-versions and cipher-suites sets and that DH/ECDHE parameters are taken
from the first grab only.  With a first grab whose key exchange is not ECDHE
and a successful TLS 1.0 second grab using ECDHE, the summary's ECDHE
parameters come from the second grab. -/
theorem C5_counterexample :
    (probeEx VersionTLS12).dhParams = DhParams.otherParams
    ∧ (probeEx VersionTLS10).dhParams = DhParams.ecdheParams 3 23 32
    ∧ (NewMxHostSummary probeEx).ecdheCurveType = some 3
    ∧ (NewMxHostSummary probeEx).ecdheCurveId = some 23
    ∧ (NewMxHostSummary probeEx).ecdheKeyLength = some 32 := by
  refine ⟨?_, ?_, ?_, ?_, ?_⟩ <;> decide

/-- C5 (amended): the second probe capped at TLS 1.0 runs exactly when the
first probe's STARTTLS succeeded and its negotiated version is strictly above
TLS 1.0, and is merged only if its TLS handshake succeeded (a failed second
probe leaves the summary as after the first grab alone); the starttls flag and
first-seen error always come from the first grab; a certificate chain or ECDHE
parameters present in the first grab are never overwritten by the second; and
a merged second grab adds its version and cipher suite to the sets alongside
the first grab's. -/
theorem C5_second_probe_merge (probe : Nat → MxHostGrab) :
    ((NewMxHostSummaryT probe).2
        = if (probe VersionTLS12).starttls = some true
              ∧ VersionTLS10 < (probe VersionTLS12).tlsVersion
          then [VersionTLS12, VersionTLS10] else [VersionTLS12])
    ∧ (NewMxHostSummary probe).Starttls = (probe VersionTLS12).starttls
    ∧ (NewMxHostSummary probe).Error = (probe VersionTLS12).Error
    ∧ ((probe VersionTLS12).starttls = some true →
        VersionTLS10 < (probe VersionTLS12).tlsVersion →
        (probe VersionTLS10).TLSSuccessful = false →
        NewMxHostSummary probe
          = MxHostSummary.Append
              { Starttls := (probe VersionTLS12).starttls,
                Error := (probe VersionTLS12).Error }
              (probe VersionTLS12))
    ∧ ((probe VersionTLS12).starttls = some true →
        (probe VersionTLS12).certificates.isSome = true →
        (NewMxHostSummary probe).certificates = (probe VersionTLS12).certificates)
    ∧ ((probe VersionTLS12).starttls ≠ some true →
        (NewMxHostSummary probe).certificates = none)
    ∧ (∀ t i l, (probe VersionTLS12).starttls = some true →
        (probe VersionTLS12).tlsVersion ≠ 0 →
        (probe VersionTLS12).dhParams = DhParams.ecdheParams t i l →
        (NewMxHostSummary probe).ecdheCurveType = some t
          ∧ (NewMxHostSummary probe).ecdheCurveId = some i
          ∧ (NewMxHostSummary probe).ecdheKeyLength = some l)
    ∧ ((probe VersionTLS12).starttls = some true →
        VersionTLS10 < (probe VersionTLS12).tlsVersion →
        (probe VersionTLS10).TLSSuccessful = true →
        (probe VersionTLS10).tlsVersion ≠ 0 →
        ∃ vs cs, (NewMxHostSummary probe).tlsVersions = some vs
          ∧ (NewMxHostSummary probe).tlsCipherSuites = some cs
          ∧ (probe VersionTLS12).tlsVersion ∈ vs
          ∧ (probe VersionTLS10).tlsVersion ∈ vs
          ∧ (probe VersionTLS12).tlsCipherSuite ∈ cs
          ∧ (probe VersionTLS10).tlsCipherSuite ∈ cs) := by
  by_cases h1 : (probe VersionTLS12).starttls = some true
  · by_cases h2 : VersionTLS10 < (probe VersionTLS12).tlsVersion
    · by_cases h3 : (probe VersionTLS10).TLSSuccessful = true
      · have hT : NewMxHostSummaryT probe
            = ((MxHostSummary.Append
                  (MxHostSummary.Append
                    { Starttls := (probe VersionTLS12).starttls,
                      Error := (probe VersionTLS12).Error }
                    (probe VersionTLS12))
                  (probe VersionTLS10)),
               [VersionTLS12, VersionTLS10]) := by
          simp [NewMxHostSummaryT, h1, h2, h3]
        refine ⟨?_, ?_, ?_, ?_, ?_, ?_, ?_, ?_⟩
        · simp [hT, h1, h2]
        · simp [NewMxHostSummary, hT, Append_Starttls]
        · simp [NewMxHostSummary, hT, Append_Error]
        · intro _ _ hfail
          rw [h3] at hfail
          cases hfail
        · intro _ hc
          obtain ⟨certs1, hcerts⟩ := Option.isSome_iff_exists.mp hc
          simp [NewMxHostSummary, hT, Append_certificates, hcerts]
        · intro hno
          exact absurd h1 hno
        · intro t i l _ hv hdh
          refine ⟨?_, ?_, ?_⟩ <;>
            simp [NewMxHostSummary, hT, Append_ecdheCurveType, Append_ecdheCurveId,
              Append_ecdheKeyLength, hv, hdh]
        · intro _ _ _ hv2
          have hv1 : (probe VersionTLS12).tlsVersion ≠ 0 := by
            unfold VersionTLS10 at h2
            omega
          refine ⟨setAdd (setAdd [] (probe VersionTLS12).tlsVersion)
                    (probe VersionTLS10).tlsVersion,
                  setAdd (setAdd [] (probe VersionTLS12).tlsCipherSuite)
                    (probe VersionTLS10).tlsCipherSuite, ?_, ?_, ?_, ?_, ?_, ?_⟩
          · simp [NewMxHostSummary, hT, Append_tlsVersions, hv1, hv2]
          · simp [NewMxHostSummary, hT, Append_tlsVersions, Append_tlsCipherSuites,
              hv1, hv2]
          · exact setAdd_mono _ (setAdd_self _ _)
          · exact setAdd_self _ _
          · exact setAdd_mono _ (setAdd_self _ _)
          · exact setAdd_self _ _
      · have hT : NewMxHostSummaryT probe
            = ((MxHostSummary.Append
                  { Starttls := (probe VersionTLS12).starttls,
                    Error := (probe VersionTLS12).Error }
                  (probe VersionTLS12)),
               [VersionTLS12, VersionTLS10]) := by
          simp [NewMxHostSummaryT, h1, h2, h3]
        refine ⟨?_, ?_, ?_, ?_, ?_, ?_, ?_, ?_⟩
        · simp [hT, h1, h2]
        · simp [NewMxHostSummary, hT, Append_Starttls]
        · simp [NewMxHostSummary, hT, Append_Error]
        · intro _ _ _
          simp [NewMxHostSummary, hT]
        · intro _ hc
          obtain ⟨certs1, hcerts⟩ := Option.isSome_iff_exists.mp hc
          simp [NewMxHostSummary, hT, Append_certificates, hcerts]
        · intro hno
          exact absurd h1 hno
        · intro t i l _ hv hdh
          refine ⟨?_, ?_, ?_⟩ <;>
            simp [NewMxHostSummary, hT, Append_ecdheCurveType, Append_ecdheCurveId,
              Append_ecdheKeyLength, hv, hdh]
        · intro _ _ hsucc _
          exact absurd hsucc h3
    · have hT : NewMxHostSummaryT probe
          = ((MxHostSummary.Append
                { Starttls := (probe VersionTLS12).starttls,
                  Error := (probe VersionTLS12).Error }
                (probe VersionTLS12)),
             [VersionTLS12]) := by
        simp [NewMxHostSummaryT, h1, h2]
      refine ⟨?_, ?_, ?_, ?_, ?_, ?_, ?_, ?_⟩
      · simp [hT, h2]
      · simp [NewMxHostSummary, hT, Append_Starttls]
      · simp [NewMxHostSummary, hT, Append_Error]
      · intro _ h2' _
        exact absurd h2' h2
      · intro _ hc
        obtain ⟨certs1, hcerts⟩ := Option.isSome_iff_exists.mp hc
        simp [NewMxHostSummary, hT, Append_certificates, hcerts]
      · intro hno
        exact absurd h1 hno
      · intro t i l _ hv hdh
        refine ⟨?_, ?_, ?_⟩ <;>
          simp [NewMxHostSummary, hT, Append_ecdheCurveType, Append_ecdheCurveId,
            Append_ecdheKeyLength, hv, hdh]
      · intro _ h2' _ _
        exact absurd h2' h2
  · have hT : NewMxHostSummaryT probe
        = ({ Starttls := (probe VersionTLS12).starttls,
             Error := (probe VersionTLS12).Error },
           [VersionTLS12]) := by
      simp [NewMxHostSummaryT, h1]
    refine ⟨?_, ?_, ?_, ?_, ?_, ?_, ?_, ?_⟩
    · simp [hT, h1]
    · simp [NewMxHostSummary, hT]
    · simp [NewMxHostSummary, hT]
    · intro h1' _ _
      exact absurd h1' h1
    · intro h1' _
      exact absurd h1' h1
    · intro _
      simp [NewMxHostSummary, hT]
    · intro t i l h1' _ _
      exact absurd h1' h1
    · intro h1' _ _ _
      exact absurd h1' h1

end TlsPolicy

